import Mathlib

/-
Verification of the scheduling subsystem of the mesa agent-based modelling
framework (src/mesa/time.py, src/mesa/agent.py, src/mesa/model.py) against its
natural-language specification.

Shallow-embedding conventions:
* Python numbers (`steps`, `time`, delays, event timestamps) are embedded as
  `Nat` respectively `ℚ` (exact arithmetic in place of Python floats).
* The agent registry `model.agents_by_type` is an association list from agent
  type tags to the insertion-ordered list of agent identifiers of that type;
  iterating a Python dict yields its keys in insertion order, so
  `chain.from_iterable(agents_by_type.values())` is the concatenation of the
  per-type key lists, and `agent_key in agents` / `agents[agent_key]` are
  membership test and lookup by identifier.
* The model's single random stream is abstracted by an index `rngIdx` into
  ambient streams: `shuffles n keys` is the permutation that the n-th call to
  `random.shuffle` applies to `keys`, and `floats n` is the value returned by
  the n-th call to `random.random`; every stochastic call consumes one index.
* An agent behaviour method is abstracted by its scheduling-visible effect: a
  function from the method name and the agent identifier to a registry
  transformation (spec section 5: all scheduling-visible mutation is performed
  inline by the behaviour methods themselves).  Each invocation performed by a
  scheduler is recorded in a trace field `log`.
-/

namespace Mesa

abbrev AgentId := Nat

abbrev AgentType := Nat

/-- Modelled from the spec: the AgentRegistry behind `model.agents_by_type`,
which src/mesa/time.py reads but src/mesa/model.py (in src/) never defines
(only its readers are in src/; the repository's test-suite uses it as the
mapping from agent type to the ordered collection of live agents).  Spec
section 3: per-model mapping from agent type to the insertion-ordered,
duplicate-free collection of live agents of that type, looked up by
identity. -/
abbrev Registry := List (AgentType × List AgentId)

/-- The scheduling-visible effect of one agent behaviour-method invocation:
given the method name and the agent identifier, how the call mutates the
agent registry (registration and removal of agents, spec section 5). -/
abbrev Behavior := String → AgentId → Registry → Registry

/-- State owned by a `BaseScheduler` and its model: the live registry, the
`steps` and `time` clocks of the scheduler, the position in the model's
random stream, and the chronological trace of behaviour-method invocations
(method name, agent id) performed so far. -/
structure SchedState where
  reg : Registry
  steps : Nat
  time : ℚ
  rngIdx : Nat
  log : List (String × AgentId)
deriving DecidableEq, Repr

/-- Python truthiness of the `agent_order` attribute: `if self.agent_order:`
is false both for `None` and for an empty list. -/
def truthy : Option (List AgentType) → Bool
  | none => false
  | some l => !l.isEmpty

/-- Embedding of `self.model.agents_by_type.get(agent_type, [])`: the key list
of the bucket of a given type, or `[]` when the type has no bucket. -/
def bucketKeys (reg : Registry) (t : AgentType) : List AgentId :=
  match reg.find? (fun b => b.1 == t) with
  | some b => b.2
  | none => []

/-- Embedding of `list(chain.from_iterable(self.model.agents_by_type.values()))`:
all registered agent identifiers, bucket by bucket in registry order, each
bucket in insertion order. -/
def allKeys (reg : Registry) : List AgentId :=
  (reg.map Prod.snd).flatten

/-- Existence lookup performed by `do_each` immediately before an invocation:
`for agents in self.model.agents_by_type.values(): if agent_key in agents`. -/
def containsAgent (reg : Registry) (k : AgentId) : Bool :=
  reg.any (fun b => b.2.contains k)

/-- The `for agent_key in agent_keys` loop of `BaseScheduler.do_each`
(src/mesa/time.py lines 104-109): for each key of the snapshot, look the key
up in the current registry; when found, invoke the named method on that agent
(recorded in the trace, with the registry mutated by the behaviour); when
absent, skip silently. -/
def invokeLoop (act : Behavior) (method : String) (keys : List AgentId)
    (st : SchedState) : SchedState :=
  match keys with
  | [] => st
  | k :: ks =>
    if containsAgent st.reg k then
      invokeLoop act method ks
        { st with reg := act method k st.reg, log := st.log ++ [(method, k)] }
    else
      invokeLoop act method ks st

/-- Embedding of `BaseScheduler.get_agent_keys` (src/mesa/time.py lines
79-90): assemble the key snapshot (configured type order when `agent_order`
is truthy, otherwise full registry order) and optionally shuffle it with the
model's random stream; returns the keys and the new stream position. -/
def get_agent_keys (shuffles : Nat → List AgentId → List AgentId)
    (agentOrder : Option (List AgentType)) (reg : Registry) (rngIdx : Nat)
    (shuffle : Bool) : List AgentId × Nat :=
  let keys :=
    if truthy agentOrder then
      (agentOrder.getD []).foldl (fun acc t => acc ++ bucketKeys reg t) []
    else
      allKeys reg
  if shuffle then (shuffles rngIdx keys, rngIdx + 1) else (keys, rngIdx)

/-- Embedding of `BaseScheduler.do_each` (src/mesa/time.py lines 92-109).
When no key list is supplied it snapshots the keys first: with a truthy
`agent_order` it calls `get_agent_keys()` (note: without forwarding the
`shuffle` flag, exactly as in the source); otherwise it materialises the
registry order and shuffles it when asked.  It then runs the invocation
loop over the snapshot. -/
def do_each (shuffles : Nat → List AgentId → List AgentId)
    (agentOrder : Option (List AgentType)) (act : Behavior) (method : String)
    (agentKeys : Option (List AgentId)) (shuffle : Bool)
    (st : SchedState) : SchedState :=
  match agentKeys with
  | some keys => invokeLoop act method keys st
  | none =>
    if truthy agentOrder then
      let p := get_agent_keys shuffles agentOrder st.reg st.rngIdx false
      invokeLoop act method p.1 { st with rngIdx := p.2 }
    else
      if shuffle then
        invokeLoop act method (shuffles st.rngIdx (allKeys st.reg))
          { st with rngIdx := st.rngIdx + 1 }
      else
        invokeLoop act method (allKeys st.reg) st

namespace BaseScheduler

/-- Embedding of `BaseScheduler.step` (src/mesa/time.py lines 67-73):
`self.do_each("step")`, then `self.steps += 1` and `self.time += 1`. -/
def step (shuffles : Nat → List AgentId → List AgentId)
    (agentOrder : Option (List AgentType)) (act : Behavior)
    (st : SchedState) : SchedState :=
  let st1 := do_each shuffles agentOrder act ("step") none false st
  { st1 with steps := st1.steps + 1, time := st1.time + 1 }

end BaseScheduler

namespace RandomActivation

/-- Embedding of `RandomActivation.step` (src/mesa/time.py lines 128-135):
`self.do_each("step", shuffle=True)`, then `self.steps += 1` and
`self.time += 1`. -/
def step (shuffles : Nat → List AgentId → List AgentId)
    (agentOrder : Option (List AgentType)) (act : Behavior)
    (st : SchedState) : SchedState :=
  let st1 := do_each shuffles agentOrder act ("step") none true st
  { st1 with steps := st1.steps + 1, time := st1.time + 1 }

end RandomActivation

namespace SimultaneousActivation

/-- Embedding of `SimultaneousActivation.step` (src/mesa/time.py lines
155-163): `self.do_each("step")`, then `self.do_each("advance")` (which
recomputes the agent keys from scratch), then `self.steps += 1` and
`self.time += 1`. -/
def step (shuffles : Nat → List AgentId → List AgentId)
    (agentOrder : Option (List AgentType)) (act : Behavior)
    (st : SchedState) : SchedState :=
  let st1 := do_each shuffles agentOrder act ("step") none false st
  let st2 := do_each shuffles agentOrder act ("advance") none false st1
  { st2 with steps := st2.steps + 1, time := st2.time + 1 }

end SimultaneousActivation

/-- A binary64 floating-point value, represented exactly as an integer
mantissa scaled by a power of two: the value is `num / 2 ^ exp`.  The
operations below return values rounded to 53 significant bits
(round-to-nearest, ties to even), which is IEEE-754 binary64 arithmetic on
the number range exercised by the schedulers' clocks (magnitudes between the
subnormal threshold and `2^53`; overflow and subnormal rounding lie outside
this model and outside that range). -/
structure F64 where
  num : ℤ
  exp : ℕ
deriving DecidableEq, Repr

/-- Smallest shift `s` (searched with bounded fuel) such that `n * 2 ^ s / d`
reaches the binade `[2^52, 2^53)` of the 53-bit mantissa grid, i.e. the
first `s` with `d * 2 ^ 52 ≤ n * 2 ^ s`. -/
def mantissaShift (n d : ℕ) : Nat → ℕ → ℕ
  | 0, s => s
  | fuel + 1, s =>
    if d * 2 ^ 52 ≤ n * 2 ^ s then s else mantissaShift n d fuel (s + 1)

/-- Round-to-nearest-even of the positive rational `n / d` onto the 53-bit
mantissa grid: scale into the binade `[2^52, 2^53)`, divide with remainder,
and round the scaled mantissa to the nearest integer, ties to the even
mantissa. -/
def roundPos (n d : ℕ) : F64 :=
  let s := mantissaShift n d 1200 0
  let m := n * 2 ^ s / d
  let r := n * 2 ^ s % d
  let m' := if 2 * r < d then m
            else if d < 2 * r then m + 1
            else if m % 2 = 0 then m else m + 1
  ⟨(m' : ℤ), s⟩

/-- Round-to-nearest-even of the rational `n / d` to binary64 (zero is exact,
negative values by sign symmetry). -/
def roundFrac (n : ℤ) (d : ℕ) : F64 :=
  if n = 0 then ⟨0, 0⟩
  else if 0 < n then roundPos n.toNat d
  else ⟨-(roundPos (-n).toNat d).num, (roundPos (-n).toNat d).exp⟩

/-- The exact rational value of a binary64 representation. -/
def F64.val (x : F64) : ℚ :=
  (x.num : ℚ) / 2 ^ x.exp

/-- IEEE-754 binary64 addition: round the exact sum of the two values. -/
def F64.add (x y : F64) : F64 :=
  roundFrac (x.num * 2 ^ y.exp + y.num * 2 ^ x.exp) (2 ^ (x.exp + y.exp))

namespace StagedActivation

/-- Normalisation performed by `StagedActivation.__init__` (src/mesa/time.py
lines 188-210): `self.stage_list = stage_list if stage_list else ["step"]`
(Python truthiness: both `None` and an empty list fall back to `["step"]`),
after which `self.stage_time = 1 / len(self.stage_list)` — a Python float
division, embedded below as the binary64 quotient `roundFrac 1 len`. -/
def stageListOf : Option (List String) → List String
  | none => [("step")]
  | some [] => [("step")]
  | some (s :: rest) => s :: rest

/-- One iteration of the `for stage in self.stage_list` loop of
`StagedActivation.step` (src/mesa/time.py lines 217-225): a stage whose name
starts with "model." invokes the named model-level method (its
scheduling-visible effect on the registry given by `modelAct`), any other
stage runs `do_each` over the current key snapshot; then the keys are
recomputed (shuffled between stages when configured) and the clock advances
by `self.time += self.stage_time` — a Python float addition, embedded as
binary64 `F64.add`.  The triple carries (agent_keys, binary64 clock, state);
the state's `time` field always mirrors the exact rational value of the
binary64 clock. -/
def runStage (shuffles : Nat → List AgentId → List AgentId) (act : Behavior)
    (modelAct : String → Registry → Registry) (stageTimeF : F64)
    (shuffleBetweenStages : Bool) (p : List AgentId × F64 × SchedState)
    (stage : String) : List AgentId × F64 × SchedState :=
  let s1 := if stage.startsWith ("model.") then
      { p.2.2 with reg := modelAct (stage.drop 6) p.2.2.reg }
    else
      do_each shuffles none act stage (some p.1) false p.2.2
  let q := get_agent_keys shuffles none s1.reg s1.rngIdx shuffleBetweenStages
  let fp := F64.add p.2.1 stageTimeF
  (q.1, fp, { s1 with rngIdx := q.2, time := fp.val })

/-- Embedding of `StagedActivation.step` (src/mesa/time.py lines 212-227) for
a scheduler whose `stage_list` attribute is `stageList`
(`StagedActivation.__init__` passes no `agent_order` to the base constructor,
so `agent_order` is `None` here): snapshot the keys (shuffled when the
`shuffle` flag is set), run every stage in order, and finally increment
`steps` by 1.  `stage_time = 1 / len(stage_list)` is the binary64 quotient
computed once by the constructor (src/mesa/time.py line 210); `fp0` is the
binary64 representation of the scheduler's clock on entry
(`st.time = fp0.val`). -/
def step (shuffles : Nat → List AgentId → List AgentId) (act : Behavior)
    (modelAct : String → Registry → Registry) (stageList : List String)
    (shuffle shuffleBetweenStages : Bool) (fp0 : F64)
    (st : SchedState) : SchedState :=
  let stageTimeF := roundFrac 1 stageList.length
  let p0 := get_agent_keys shuffles none st.reg st.rngIdx shuffle
  let r := stageList.foldl
    (runStage shuffles act modelAct stageTimeF shuffleBetweenStages)
    (p0.1, fp0, { st with rngIdx := p0.2 })
  { r.2.2 with steps := r.2.2.steps + 1 }

end StagedActivation

/-- An event of the `DiscreteEventScheduler` priority queue: (scheduled time,
tie-break draw, agent id).  Python's heapq orders the tuples
lexicographically; the tie-break draw is a fresh `random.random()` value, so
ordering is decided by (time, tie-break) and only a draw collision would ever
reach the agent component (the embedding orders by (time, tie-break)). -/
abbrev Event := ℚ × ℚ × AgentId

/-- Lexicographic (time, tie-break) order of two events. -/
def evLe (e f : Event) : Prop :=
  e.1 < f.1 ∨ (e.1 = f.1 ∧ e.2.1 ≤ f.2.1)

instance (e f : Event) : Decidable (evLe e f) := by
  unfold evLe
  exact inferInstance

/-- Push onto the event queue (`heapq.heappush`): the queue is maintained as
a list sorted on the lexicographic (time, tie-break) key, which is
extensionally the heap's pop-min behaviour. -/
def insertEvent (e : Event) : List Event → List Event
  | [] => [e]
  | f :: rest => if evLe e f then e :: f :: rest else f :: insertEvent e rest

/-- State of a `DiscreteEventScheduler` (src/mesa/time.py lines 252-354):
the registered-agent ids, the event queue, the clock `time`, the configured
`time_step`, the `steps` counter, the position in the model's random stream
(consumed by the tie-break draws), and the chronological trace of event
invocations (clock value at invocation, agent id). -/
structure DESState where
  /-- Modelled from the spec: the scheduler's own registered-agent mapping
  `self._agents`, read by `DiscreteEventScheduler.step` (src/mesa/time.py
  line 330) and populated by `BaseScheduler.add`, neither of which is defined
  in src/; per spec, the set of currently registered agents keyed by unique
  id, insertion-ordered and duplicate-free. -/
  agentsReg : List AgentId
  queue : List Event
  time : ℚ
  timeStep : ℚ
  steps : Nat
  rngIdx : Nat
  log : List (ℚ × AgentId)
deriving DecidableEq, Repr

namespace DiscreteEventScheduler

/-- Embedding of `DiscreteEventScheduler.schedule_event` (src/mesa/time.py
lines 301-309): raise a ValueError when the requested time is strictly before
the current clock; otherwise draw a tie-break value from the model's random
stream and push (time, draw, agent) onto the priority queue. -/
def schedule_event (floats : Nat → ℚ) (t : ℚ) (a : AgentId)
    (st : DESState) : Except String DESState :=
  if t < st.time then
    Except.error ("Scheduled time must be >= the current time")
  else
    Except.ok { st with queue := insertEvent (t, floats st.rngIdx, a) st.queue,
                        rngIdx := st.rngIdx + 1 }

/-- Embedding of `DiscreteEventScheduler.schedule_in` (src/mesa/time.py lines
311-316): raise a ValueError on a negative delay, otherwise schedule at
`self.time + delay`. -/
def schedule_in (floats : Nat → ℚ) (d : ℚ) (a : AgentId)
    (st : DESState) : Except String DESState :=
  if d < 0 then
    Except.error ("Delay must be non-negative")
  else
    schedule_event floats (st.time + d) a st

/-- The `while self.event_queue and self.event_queue[0][0] <= end_time` loop
of `DiscreteEventScheduler.step` (src/mesa/time.py lines 322-331): pop the
minimum event while its time is at most `end_time`, advance the clock to the
event's timestamp, and invoke the agent's step only when its id is currently
registered (a popped event of an unregistered agent is consumed silently).
The queue is passed as the explicit recursion argument and kept in sync with
the state's queue field; the behaviour `act` is the scheduling-visible effect
of `agent.step()` on the scheduler's registered-agent set (behaviours that
push further events are outside the claims settled here). -/
def runEvents (act : AgentId → List AgentId → List AgentId) (endTime : ℚ) :
    List Event → DESState → DESState
  | [], st => st
  | e :: rest, st =>
    if e.1 ≤ endTime then
      runEvents act endTime rest
        (if st.agentsReg.contains e.2.2 then
          { st with queue := rest, time := e.1,
                    agentsReg := act e.2.2 st.agentsReg,
                    log := st.log ++ [(e.1, e.2.2)] }
        else
          { st with queue := rest, time := e.1 })
    else st

/-- Embedding of `DiscreteEventScheduler.step` (src/mesa/time.py lines
318-335): set `end_time = time + time_step`, execute all queued events up to
`end_time`, then set `time` to exactly `end_time` and increment `steps`. -/
def step (act : AgentId → List AgentId → List AgentId)
    (st : DESState) : DESState :=
  let endTime := st.time + st.timeStep
  let st1 := runEvents act endTime st.queue st
  { st1 with time := endTime, steps := st1.steps + 1 }

/-- Modelled from the spec: `BaseScheduler.add`, invoked by
`DiscreteEventScheduler.add` through `super().add(agent)` (src/mesa/time.py
line 350) but absent from src/mesa/time.py's BaseScheduler; per spec it
registers the agent under its unique id in the scheduler's `_agents` mapping
(idempotent: re-adding an already-registered agent does not duplicate it). -/
def baseSchedulerAdd (a : AgentId) (l : List AgentId) : List AgentId :=
  if l.contains a then l else l ++ [a]

/-- Embedding of `DiscreteEventScheduler.add` (src/mesa/time.py lines
343-354): register the agent via the base scheduler, then, when
`schedule_now` is set (its default is True), immediately schedule the
agent's first event at the current time. -/
def add (floats : Nat → ℚ) (a : AgentId) (scheduleNow : Bool)
    (st : DESState) : Except String DESState :=
  let st0 := { st with agentsReg := baseSchedulerAdd a st.agentsReg }
  if scheduleNow then schedule_event floats st0.time a st0 else Except.ok st0

end DiscreteEventScheduler

/-- State of a `Model` as constructed by `Model.__init__`
(src/mesa/model.py lines 47-56): the `running` flag, the unique-id counter
`current_id`, and the agent storage `_agents` (a defaultdict from agent type
to the agents of that type, initially empty). -/
structure ModelState where
  running : Bool
  current_id : Nat
  agentsStore : Registry
deriving DecidableEq, Repr

namespace Model

/-- Embedding of `Model.__init__` (src/mesa/model.py lines 47-56). -/
def init : ModelState :=
  { running := true, current_id := 0, agentsStore := [] }

/-- Membership of an agent id in the model's live population (the union of
all type buckets of the model's agent storage, as read by the `agents`
property of src/mesa/model.py lines 58-61). -/
def hasAgent (m : ModelState) (uid : AgentId) : Bool :=
  m.agentsStore.any (fun b => b.2.contains uid)

end Model

/-- The attributes set on an agent object by `Agent.__init__`
(src/mesa/agent.py lines 33-44): the unique id, the agent type tag, the
model back-reference (represented by threading the model state), and the
position, initialised to None. -/
structure AgentObj where
  unique_id : AgentId
  agent_type : AgentType
  pos : Option (Int × Int)
deriving DecidableEq, Repr

namespace Agent

/-- Embedding of `Agent.__init__` (src/mesa/agent.py lines 33-44): it sets
`self.unique_id`, `self.agent_type`, `self.model` and `self.pos = None`, and
performs no other action — in particular it does not touch the model state,
which is returned unchanged. -/
def init (uid : AgentId) (atype : AgentType) (m : ModelState) :
    AgentObj × ModelState :=
  ({ unique_id := uid, agent_type := atype, pos := none }, m)

end Agent

/- Helper lemmas about the invocation loop. -/

theorem invokeLoop_append (act : Behavior) (m : String) (xs ys : List AgentId)
    (st : SchedState) :
    invokeLoop act m (xs ++ ys) st = invokeLoop act m ys (invokeLoop act m xs st) := by
  induction xs generalizing st with
  | nil => rfl
  | cons k ks ih =>
    simp only [List.cons_append, invokeLoop]
    by_cases h : containsAgent st.reg k
    · simp only [h, if_true]
      exact ih _
    · simp only [h, if_false]
      exact ih _

theorem invokeLoop_steps (act : Behavior) (m : String) (ks : List AgentId)
    (st : SchedState) : (invokeLoop act m ks st).steps = st.steps := by
  induction ks generalizing st with
  | nil => rfl
  | cons k ks ih =>
    simp only [invokeLoop]
    by_cases h : containsAgent st.reg k
    · simp only [h, if_true]; exact ih _
    · simp only [h, if_false]; exact ih _

theorem invokeLoop_time (act : Behavior) (m : String) (ks : List AgentId)
    (st : SchedState) : (invokeLoop act m ks st).time = st.time := by
  induction ks generalizing st with
  | nil => rfl
  | cons k ks ih =>
    simp only [invokeLoop]
    by_cases h : containsAgent st.reg k
    · simp only [h, if_true]; exact ih _
    · simp only [h, if_false]; exact ih _

theorem invokeLoop_rngIdx (act : Behavior) (m : String) (ks : List AgentId)
    (st : SchedState) : (invokeLoop act m ks st).rngIdx = st.rngIdx := by
  induction ks generalizing st with
  | nil => rfl
  | cons k ks ih =>
    simp only [invokeLoop]
    by_cases h : containsAgent st.reg k
    · simp only [h, if_true]; exact ih _
    · simp only [h, if_false]; exact ih _

theorem contains_true_iff_mem {l : List AgentId} {k : AgentId} :
    l.contains k = true ↔ k ∈ l := List.elem_iff

theorem containsAgent_iff (reg : Registry) (k : AgentId) :
    containsAgent reg k = true ↔ k ∈ allKeys reg := by
  unfold containsAgent allKeys
  rw [List.any_eq_true]
  constructor
  · rintro ⟨b, hb, hk⟩
    exact List.mem_flatten.mpr
      ⟨b.2, List.mem_map_of_mem Prod.snd hb, contains_true_iff_mem.mp hk⟩
  · intro h
    rcases List.mem_flatten.mp h with ⟨l, hl, hk⟩
    rcases List.mem_map.mp hl with ⟨b, hb, rfl⟩
    exact ⟨b, hb, contains_true_iff_mem.mpr hk⟩

/-- When the behaviour leaves the registry unchanged and every snapshot key is
registered, the loop invokes every key in snapshot order, once per occurrence,
and the registry survives untouched. -/
theorem invokeLoop_log_of_preserve (act : Behavior) (m : String)
    (ks : List AgentId) (st : SchedState)
    (hact : ∀ k r, act m k r = r)
    (hkeys : ∀ k ∈ ks, containsAgent st.reg k = true) :
    (invokeLoop act m ks st).log = st.log ++ ks.map (fun k => (m, k)) ∧
      (invokeLoop act m ks st).reg = st.reg := by
  induction ks generalizing st with
  | nil => simp [invokeLoop]
  | cons k ks ih =>
    have hk : containsAgent st.reg k = true := hkeys k (List.mem_cons_self k ks)
    have hstep : invokeLoop act m (k :: ks) st
        = invokeLoop act m ks { st with log := st.log ++ [(m, k)] } := by
      simp [invokeLoop, hk, hact]
    rw [hstep]
    have hks : ∀ j ∈ ks, containsAgent st.reg j = true :=
      fun j hj => hkeys j (List.mem_cons_of_mem k hj)
    have h2 := ih { st with log := st.log ++ [(m, k)] } hks
    rcases h2 with ⟨hlog, hreg⟩
    constructor
    · rw [hlog]
      simp
    · rw [hreg]

theorem count_map_pair (s : String) (l : List AgentId) (k : AgentId) :
    (l.map (fun j => ((s, j) : String × AgentId))).count (s, k) = l.count k := by
  induction l with
  | nil => rfl
  | cons j l ih =>
    simp only [List.map_cons, List.count_cons, ih]
    by_cases h : j = k
    · simp [h]
    · simp [h, Prod.ext_iff]

theorem invokeLoop_not_mem_log (act : Behavior) (m : String)
    (ks : List AgentId) (st : SchedState) (j : AgentId)
    (hj : j ∉ ks) (hlog : (m, j) ∉ st.log) :
    (m, j) ∉ (invokeLoop act m ks st).log := by
  induction ks generalizing st with
  | nil => exact hlog
  | cons k ks ih =>
    have hkj : k ≠ j := fun h => hj (h ▸ List.mem_cons_self k ks)
    have hjks : j ∉ ks := fun h => hj (List.mem_cons_of_mem k h)
    simp only [invokeLoop]
    by_cases h : containsAgent st.reg k
    · simp only [h, if_true]
      refine ih _ hjks ?_
      intro hmem
      rcases List.mem_append.mp hmem with h1 | h2
      · exact hlog h1
      · rcases List.mem_singleton.mp h2 with h3
        exact hkj (congrArg Prod.snd h3).symm
    · simp only [h, if_false]
      exact ih _ hjks hlog

theorem do_each_steps (shuffles : Nat → List AgentId → List AgentId)
    (agentOrder : Option (List AgentType)) (act : Behavior) (m : String)
    (agentKeys : Option (List AgentId)) (shuffle : Bool) (st : SchedState) :
    (do_each shuffles agentOrder act m agentKeys shuffle st).steps = st.steps := by
  unfold do_each
  cases agentKeys with
  | some keys => exact invokeLoop_steps act m keys st
  | none =>
    by_cases h : truthy agentOrder = true
    · simp [h, invokeLoop_steps]
    · by_cases hs : shuffle = true
      · simp [h, hs, invokeLoop_steps]
      · simp [h, hs, invokeLoop_steps]

theorem do_each_time (shuffles : Nat → List AgentId → List AgentId)
    (agentOrder : Option (List AgentType)) (act : Behavior) (m : String)
    (agentKeys : Option (List AgentId)) (shuffle : Bool) (st : SchedState) :
    (do_each shuffles agentOrder act m agentKeys shuffle st).time = st.time := by
  unfold do_each
  cases agentKeys with
  | some keys => exact invokeLoop_time act m keys st
  | none =>
    by_cases h : truthy agentOrder = true
    · simp [h, invokeLoop_time]
    · by_cases hs : shuffle = true
      · simp [h, hs, invokeLoop_time]
      · simp [h, hs, invokeLoop_time]

/-- Claim C1: for a model with agents registered and no type ordering
configured (`agent_order` is `None`), one call to `BaseScheduler.step()`
invokes the "step" method exactly once on every currently-registered agent,
in registry insertion order, and then increments `steps` by 1 and `time`
by 1. -/
theorem claim_C1_base_step (shuffles : Nat → List AgentId → List AgentId)
    (agentOrder : Option (List AgentType)) (act : Behavior) (st : SchedState)
    (k : AgentId)
    (hao : truthy agentOrder = false)
    (hact : ∀ m' k' r, act m' k' r = r)
    (hwf : (allKeys st.reg).Nodup)
    (hk : containsAgent st.reg k = true) :
    (BaseScheduler.step shuffles agentOrder act st).log
        = st.log ++ (allKeys st.reg).map (fun j => (("step" : String), j)) ∧
      (BaseScheduler.step shuffles agentOrder act st).steps = st.steps + 1 ∧
      (BaseScheduler.step shuffles agentOrder act st).time = st.time + 1 ∧
      ((allKeys st.reg).map (fun j => (("step" : String), j))).count
        (("step" : String), k) = 1 := by
  have hkeys : ∀ j ∈ allKeys st.reg, containsAgent st.reg j = true := by
    intro j hj
    exact (containsAgent_iff st.reg j).mpr hj
  have hdo : do_each shuffles agentOrder act ("step") none false st
      = invokeLoop act ("step") (allKeys st.reg) st := by
    simp [do_each, hao]
  have hmain := invokeLoop_log_of_preserve act ("step") (allKeys st.reg) st
    (fun k' r => hact ("step") k' r) hkeys
  refine ⟨?_, ?_, ?_, ?_⟩
  · show (do_each shuffles agentOrder act ("step") none false st).log = _
    rw [hdo, hmain.1]
  · show (do_each shuffles agentOrder act ("step") none false st).steps + 1 = _
    rw [hdo, invokeLoop_steps]
  · show (do_each shuffles agentOrder act ("step") none false st).time + 1 = _
    rw [hdo, invokeLoop_time]
  · rw [count_map_pair]
    exact List.count_eq_one_of_mem hwf ((containsAgent_iff st.reg k).mp hk)

/-- Witness for claim C1: a registry with agents 1, 2, 3 of two types, trivial
behaviour, no type ordering. -/
theorem claim_C1_base_step_witness :
    (truthy none = false) ∧
    ((allKeys [(0, [1, 2]), (1, [3])]).Nodup) ∧
    (containsAgent [(0, [1, 2]), (1, [3])] 2 = true) ∧
    ((BaseScheduler.step (fun _ l => l.reverse) none (fun _ _ r => r)
        { reg := [(0, [1, 2]), (1, [3])], steps := 0, time := 0,
          rngIdx := 0, log := [] }).log
      = [] ++ (allKeys [(0, [1, 2]), (1, [3])]).map
          (fun j => (("step" : String), j)) ∧
     (BaseScheduler.step (fun _ l => l.reverse) none (fun _ _ r => r)
        { reg := [(0, [1, 2]), (1, [3])], steps := 0, time := 0,
          rngIdx := 0, log := [] }).steps = 0 + 1 ∧
     (BaseScheduler.step (fun _ l => l.reverse) none (fun _ _ r => r)
        { reg := [(0, [1, 2]), (1, [3])], steps := 0, time := 0,
          rngIdx := 0, log := [] }).time = 0 + 1 ∧
     ((allKeys [(0, [1, 2]), (1, [3])]).map
        (fun j => (("step" : String), j))).count (("step" : String), 2) = 1) :=
  ⟨by decide, by decide, by decide,
    claim_C1_base_step (fun _ l => l.reverse) none (fun _ _ r => r)
      { reg := [(0, [1, 2]), (1, [3])], steps := 0, time := 0,
        rngIdx := 0, log := [] } 2
      (by decide) (fun _ _ _ => rfl) (by decide) (by decide)⟩

/-- Claim C2: during any scheduler invocation pass, the list of agent
identities is snapshotted before invocation begins (with no type ordering,
`do_each` materialises the registry-order snapshot and only then loops); an
agent registered during the pass (an identity absent from the snapshot) is
never invoked in that pass; and an agent unregistered during the pass whose
invocation has not yet occurred is skipped silently, while invocation of all
the other snapshot members is unaffected. -/
theorem claim_C2_snapshot_and_skip (shuffles : Nat → List AgentId → List AgentId)
    (agentOrder : Option (List AgentType)) (act : Behavior) (m : String)
    (ks₁ ks₂ ks : List AgentId) (b j : AgentId) (st : SchedState)
    (hao : truthy agentOrder = false)
    (hb : containsAgent (invokeLoop act m ks₁ st).reg b = false)
    (hj : j ∉ ks)
    (hjlog : (m, j) ∉ st.log) :
    do_each shuffles agentOrder act m none false st
        = invokeLoop act m (allKeys st.reg) st ∧
      invokeLoop act m (ks₁ ++ b :: ks₂) st = invokeLoop act m (ks₁ ++ ks₂) st ∧
      (m, j) ∉ (invokeLoop act m ks st).log := by
  refine ⟨?_, ?_, ?_⟩
  · simp [do_each, hao]
  · rw [invokeLoop_append, invokeLoop_append]
    have : invokeLoop act m (b :: ks₂) (invokeLoop act m ks₁ st)
        = invokeLoop act m ks₂ (invokeLoop act m ks₁ st) := by
      simp [invokeLoop, hb]
    rw [this]
  · exact invokeLoop_not_mem_log act m ks st j hj hjlog

/-- Witness for claim C2: in a registry holding agents 1, 2, 3 of type 0,
agent 1's "step" unregisters agent 3; with snapshot [1] ++ 3 :: [2], agent 3
is skipped silently and agent 2 is still invoked; the identity 9, absent from
the snapshot [1, 3, 2], is never invoked. -/
theorem claim_C2_snapshot_and_skip_witness :
    do_each (fun _ l => l) none
        (fun _ k r => if k == 1 then [(0, [1, 2])] else r) ("step") none false
        { reg := [(0, [1, 2, 3])], steps := 0, time := 0, rngIdx := 0, log := [] }
      = invokeLoop (fun _ k r => if k == 1 then [(0, [1, 2])] else r) ("step")
          (allKeys [(0, [1, 2, 3])])
          { reg := [(0, [1, 2, 3])], steps := 0, time := 0, rngIdx := 0, log := [] } ∧
    invokeLoop (fun _ k r => if k == 1 then [(0, [1, 2])] else r) ("step")
        ([1] ++ 3 :: [2])
        { reg := [(0, [1, 2, 3])], steps := 0, time := 0, rngIdx := 0, log := [] }
      = invokeLoop (fun _ k r => if k == 1 then [(0, [1, 2])] else r) ("step")
          ([1] ++ [2])
          { reg := [(0, [1, 2, 3])], steps := 0, time := 0, rngIdx := 0, log := [] } ∧
    ((("step" : String), (9 : AgentId)) ∉
      (invokeLoop (fun _ k r => if k == 1 then [(0, [1, 2])] else r) ("step")
        [1, 3, 2]
        { reg := [(0, [1, 2, 3])], steps := 0, time := 0, rngIdx := 0,
          log := [] }).log) :=
  claim_C2_snapshot_and_skip (fun _ l => l) none
    (fun _ k r => if k == 1 then [(0, [1, 2])] else r) ("step")
    [1] [2] [1, 3, 2] 3 9
    { reg := [(0, [1, 2, 3])], steps := 0, time := 0, rngIdx := 0, log := [] }
    (by decide) (by decide) (by decide) (by decide)

/-- Claim C3 is refuted by this evaluation: for a `RandomActivation`
scheduler with a configured `agent_order`, `step()` never consults the
model's random stream and activates the agents in fixed insertion order.
For every possible stream of shuffle permutations, two successive steps on a
registry with agents 1, 2 of type 0 both log the same insertion-order pass
and leave the stream position untouched, contradicting the claim that every
step shuffles the enumeration snapshot (with or without agent_order). -/
theorem claim_C3_agent_order_never_shuffled
    (shuffles : Nat → List AgentId → List AgentId) :
    (RandomActivation.step shuffles (some [0]) (fun _ _ r => r)
        { reg := [(0, [1, 2])], steps := 0, time := 0, rngIdx := 0, log := [] }).log
      = [(("step" : String), 1), (("step" : String), 2)] ∧
    (RandomActivation.step shuffles (some [0]) (fun _ _ r => r)
        { reg := [(0, [1, 2])], steps := 0, time := 0, rngIdx := 0, log := [] }).rngIdx
      = 0 ∧
    (RandomActivation.step shuffles (some [0]) (fun _ _ r => r)
      (RandomActivation.step shuffles (some [0]) (fun _ _ r => r)
        { reg := [(0, [1, 2])], steps := 0, time := 0, rngIdx := 0, log := [] })).log
      = [(("step" : String), 1), (("step" : String), 2),
         (("step" : String), 1), (("step" : String), 2)] :=
  ⟨rfl, rfl, rfl⟩

/-- Claim C3, amended to what the code does: only when `agent_order` is not
configured (not truthy) does every `RandomActivation.step()` shuffle the
registry-order snapshot with the model's random stream immediately before the
invocation pass, consuming one fresh draw from the stream at that step. -/
theorem claim_C3_amended_shuffle_without_agent_order
    (shuffles : Nat → List AgentId → List AgentId)
    (agentOrder : Option (List AgentType)) (act : Behavior) (st : SchedState)
    (hao : truthy agentOrder = false) :
    (RandomActivation.step shuffles agentOrder act st).log
        = (invokeLoop act ("step") (shuffles st.rngIdx (allKeys st.reg))
            { st with rngIdx := st.rngIdx + 1 }).log ∧
      (RandomActivation.step shuffles agentOrder act st).reg
        = (invokeLoop act ("step") (shuffles st.rngIdx (allKeys st.reg))
            { st with rngIdx := st.rngIdx + 1 }).reg ∧
      (RandomActivation.step shuffles agentOrder act st).rngIdx = st.rngIdx + 1 := by
  have hphase : do_each shuffles agentOrder act ("step") none true st
      = invokeLoop act ("step") (shuffles st.rngIdx (allKeys st.reg))
          { st with rngIdx := st.rngIdx + 1 } := by
    simp [do_each, hao]
  refine ⟨?_, ?_, ?_⟩
  · show (do_each shuffles agentOrder act ("step") none true st).log = _
    rw [hphase]
  · show (do_each shuffles agentOrder act ("step") none true st).reg = _
    rw [hphase]
  · show (do_each shuffles agentOrder act ("step") none true st).rngIdx = _
    rw [hphase, invokeLoop_rngIdx]

/-- Witness for the amended claim C3: with no agent_order, the step applies
the current stream draw (here the reversing permutation at position 0) and
advances the stream position. -/
theorem claim_C3_amended_shuffle_witness :
    (RandomActivation.step (fun _ l => l.reverse) none (fun _ _ r => r)
        { reg := [(0, [1, 2])], steps := 0, time := 0, rngIdx := 0, log := [] }).log
      = (invokeLoop (fun _ _ r => r) ("step")
          ((fun (_ : Nat) (l : List AgentId) => l.reverse) 0 (allKeys [(0, [1, 2])]))
          { reg := [(0, [1, 2])], steps := 0, time := 0, rngIdx := 0 + 1,
            log := [] }).log ∧
    (RandomActivation.step (fun _ l => l.reverse) none (fun _ _ r => r)
        { reg := [(0, [1, 2])], steps := 0, time := 0, rngIdx := 0, log := [] }).reg
      = (invokeLoop (fun _ _ r => r) ("step")
          ((fun (_ : Nat) (l : List AgentId) => l.reverse) 0 (allKeys [(0, [1, 2])]))
          { reg := [(0, [1, 2])], steps := 0, time := 0, rngIdx := 0 + 1,
            log := [] }).reg ∧
    (RandomActivation.step (fun _ l => l.reverse) none (fun _ _ r => r)
        { reg := [(0, [1, 2])], steps := 0, time := 0, rngIdx := 0,
          log := [] }).rngIdx = 0 + 1 :=
  claim_C3_amended_shuffle_without_agent_order (fun _ l => l.reverse) none
    (fun _ _ r => r)
    { reg := [(0, [1, 2])], steps := 0, time := 0, rngIdx := 0, log := [] }
    (by decide)

/-- Claim C4: one `SimultaneousActivation.step()` call runs two phases:
phase 1 invokes "step" on the full snapshot of registered agents; only after
all phase-1 invocations complete does phase 2 re-query the live snapshot
(reflecting removals during phase 1) and invoke "advance" on each surviving
agent (the phase-2 trace is appended after the whole phase-1 trace and covers
exactly the agents registered when phase 1 finished, in registry order);
`steps` and `time` each increment by 1 after both phases complete. -/
theorem claim_C4_simultaneous_two_phase
    (shuffles : Nat → List AgentId → List AgentId)
    (agentOrder : Option (List AgentType)) (act : Behavior) (st : SchedState)
    (hao : truthy agentOrder = false)
    (hadv : ∀ k r, act ("advance") k r = r) :
    do_each shuffles agentOrder act ("step") none false st
        = invokeLoop act ("step") (allKeys st.reg) st ∧
      (SimultaneousActivation.step shuffles agentOrder act st).log
        = (do_each shuffles agentOrder act ("step") none false st).log
          ++ (allKeys (do_each shuffles agentOrder act ("step") none false st).reg).map
              (fun k => (("advance" : String), k)) ∧
      (SimultaneousActivation.step shuffles agentOrder act st).reg
        = (do_each shuffles agentOrder act ("step") none false st).reg ∧
      (SimultaneousActivation.step shuffles agentOrder act st).steps = st.steps + 1 ∧
      (SimultaneousActivation.step shuffles agentOrder act st).time = st.time + 1 := by
  have hphase1 : do_each shuffles agentOrder act ("step") none false st
      = invokeLoop act ("step") (allKeys st.reg) st := by
    simp [do_each, hao]
  have hst1 := do_each shuffles agentOrder act ("step") none false st
  have hphase2 : ∀ s : SchedState,
      do_each shuffles agentOrder act ("advance") none false s
        = invokeLoop act ("advance") (allKeys s.reg) s := by
    intro s
    simp [do_each, hao]
  have hkeys : ∀ s : SchedState, ∀ k ∈ allKeys s.reg, containsAgent s.reg k = true :=
    fun s k hk => (containsAgent_iff s.reg k).mpr hk
  refine ⟨hphase1, ?_, ?_, ?_, ?_⟩
  · show (do_each shuffles agentOrder act ("advance") none false
        (do_each shuffles agentOrder act ("step") none false st)).log = _
    rw [hphase2]
    exact (invokeLoop_log_of_preserve act ("advance") _ _ hadv (hkeys _)).1
  · show (do_each shuffles agentOrder act ("advance") none false
        (do_each shuffles agentOrder act ("step") none false st)).reg = _
    rw [hphase2]
    exact (invokeLoop_log_of_preserve act ("advance") _ _ hadv (hkeys _)).2
  · show (do_each shuffles agentOrder act ("advance") none false
        (do_each shuffles agentOrder act ("step") none false st)).steps + 1 = _
    rw [do_each_steps, do_each_steps]
  · show (do_each shuffles agentOrder act ("advance") none false
        (do_each shuffles agentOrder act ("step") none false st)).time + 1 = _
    rw [do_each_time, do_each_time]

/-- Witness for claim C4: agents 1, 2, 3 of type 0; agent 1's "step"
unregisters agent 2, so phase 1 logs steps of 1 and 3 (2 is skipped) and
phase 2 advances exactly the survivors 1 and 3. -/
theorem claim_C4_simultaneous_two_phase_witness :
    do_each (fun _ l => l) none
        (fun me k r => if me == "step" && k == 1 then [(0, [1, 3])] else r)
        ("step") none false
        { reg := [(0, [1, 2, 3])], steps := 0, time := 0, rngIdx := 0, log := [] }
      = invokeLoop (fun me k r => if me == "step" && k == 1 then [(0, [1, 3])] else r)
          ("step") (allKeys [(0, [1, 2, 3])])
          { reg := [(0, [1, 2, 3])], steps := 0, time := 0, rngIdx := 0, log := [] } ∧
    (SimultaneousActivation.step (fun _ l => l) none
        (fun me k r => if me == "step" && k == 1 then [(0, [1, 3])] else r)
        { reg := [(0, [1, 2, 3])], steps := 0, time := 0, rngIdx := 0, log := [] }).log
      = (do_each (fun _ l => l) none
          (fun me k r => if me == "step" && k == 1 then [(0, [1, 3])] else r)
          ("step") none false
          { reg := [(0, [1, 2, 3])], steps := 0, time := 0, rngIdx := 0,
            log := [] }).log
        ++ (allKeys (do_each (fun _ l => l) none
            (fun me k r => if me == "step" && k == 1 then [(0, [1, 3])] else r)
            ("step") none false
            { reg := [(0, [1, 2, 3])], steps := 0, time := 0, rngIdx := 0,
              log := [] }).reg).map (fun k => (("advance" : String), k)) ∧
    (SimultaneousActivation.step (fun _ l => l) none
        (fun me k r => if me == "step" && k == 1 then [(0, [1, 3])] else r)
        { reg := [(0, [1, 2, 3])], steps := 0, time := 0, rngIdx := 0, log := [] }).reg
      = (do_each (fun _ l => l) none
          (fun me k r => if me == "step" && k == 1 then [(0, [1, 3])] else r)
          ("step") none false
          { reg := [(0, [1, 2, 3])], steps := 0, time := 0, rngIdx := 0,
            log := [] }).reg ∧
    (SimultaneousActivation.step (fun _ l => l) none
        (fun me k r => if me == "step" && k == 1 then [(0, [1, 3])] else r)
        { reg := [(0, [1, 2, 3])], steps := 0, time := 0, rngIdx := 0,
          log := [] }).steps = 0 + 1 ∧
    (SimultaneousActivation.step (fun _ l => l) none
        (fun me k r => if me == "step" && k == 1 then [(0, [1, 3])] else r)
        { reg := [(0, [1, 2, 3])], steps := 0, time := 0, rngIdx := 0,
          log := [] }).time = 0 + 1 :=
  claim_C4_simultaneous_two_phase (fun _ l => l) none
    (fun me k r => if me == "step" && k == 1 then [(0, [1, 3])] else r)
    { reg := [(0, [1, 2, 3])], steps := 0, time := 0, rngIdx := 0, log := [] }
    (by decide) (fun _ _ => rfl)

theorem runStage_clock (shuffles : Nat → List AgentId → List AgentId)
    (act : Behavior) (modelAct : String → Registry → Registry)
    (stageTimeF : F64) (sbs : Bool) (p : List AgentId × F64 × SchedState)
    (stage : String) :
    (StagedActivation.runStage shuffles act modelAct stageTimeF sbs p stage).2.1
        = F64.add p.2.1 stageTimeF ∧
      (StagedActivation.runStage shuffles act modelAct stageTimeF sbs p stage).2.2.time
        = F64.val (F64.add p.2.1 stageTimeF) ∧
      (StagedActivation.runStage shuffles act modelAct stageTimeF sbs p stage).2.2.steps
        = p.2.2.steps := by
  unfold StagedActivation.runStage
  by_cases h : stage.startsWith ("model.") = true
  · simp [h]
  · simp [h, do_each_steps]

theorem foldl_runStage_clock (shuffles : Nat → List AgentId → List AgentId)
    (act : Behavior) (modelAct : String → Registry → Registry)
    (stageTimeF : F64) (sbs : Bool) :
    ∀ (stages : List String) (p : List AgentId × F64 × SchedState),
      p.2.2.time = F64.val p.2.1 →
      (stages.foldl
          (StagedActivation.runStage shuffles act modelAct stageTimeF sbs) p).2.1
          = stages.foldl (fun f _ => F64.add f stageTimeF) p.2.1 ∧
        (stages.foldl
          (StagedActivation.runStage shuffles act modelAct stageTimeF sbs) p).2.2.time
          = F64.val ((stages.foldl
              (StagedActivation.runStage shuffles act modelAct stageTimeF sbs) p).2.1) ∧
        (stages.foldl
          (StagedActivation.runStage shuffles act modelAct stageTimeF sbs) p).2.2.steps
          = p.2.2.steps := by
  intro stages
  induction stages with
  | nil =>
    intro p hsync
    exact ⟨rfl, hsync, rfl⟩
  | cons s rest ih =>
    intro p hsync
    simp only [List.foldl_cons]
    rcases runStage_clock shuffles act modelAct stageTimeF sbs p s with ⟨hc1, hc2, hc3⟩
    have hsync' : (StagedActivation.runStage shuffles act modelAct
        stageTimeF sbs p s).2.2.time
        = F64.val (StagedActivation.runStage shuffles act modelAct
            stageTimeF sbs p s).2.1 := by
      rw [hc2, hc1]
    rcases ih (StagedActivation.runStage shuffles act modelAct stageTimeF sbs p s)
      hsync' with ⟨h1, h2, h3⟩
    refine ⟨?_, h2, ?_⟩
    · rw [h1, hc1]
    · rw [h3, hc3]

theorem staged_step_clock (shuffles : Nat → List AgentId → List AgentId)
    (act : Behavior) (modelAct : String → Registry → Registry)
    (stageList : List String) (shuffle sbs : Bool) (fp0 : F64)
    (st : SchedState) (hsync : st.time = F64.val fp0) :
    (StagedActivation.step shuffles act modelAct stageList shuffle sbs fp0 st).time
        = F64.val (stageList.foldl
            (fun f _ => F64.add f (roundFrac 1 stageList.length)) fp0) ∧
      (StagedActivation.step shuffles act modelAct stageList shuffle sbs fp0 st).steps
        = st.steps + 1 := by
  have hstep : StagedActivation.step shuffles act modelAct stageList shuffle sbs fp0 st
      = { (stageList.foldl (StagedActivation.runStage shuffles act modelAct
            (roundFrac 1 stageList.length) sbs)
            ((get_agent_keys shuffles none st.reg st.rngIdx shuffle).1, fp0,
             { st with rngIdx := (get_agent_keys shuffles none st.reg st.rngIdx shuffle).2 })).2.2
          with steps := (stageList.foldl (StagedActivation.runStage shuffles act modelAct
            (roundFrac 1 stageList.length) sbs)
            ((get_agent_keys shuffles none st.reg st.rngIdx shuffle).1, fp0,
             { st with rngIdx := (get_agent_keys shuffles none st.reg st.rngIdx shuffle).2 })).2.2.steps + 1 } := rfl
  have hfold := foldl_runStage_clock shuffles act modelAct
    (roundFrac 1 stageList.length) sbs stageList
    ((get_agent_keys shuffles none st.reg st.rngIdx shuffle).1, fp0,
     { st with rngIdx := (get_agent_keys shuffles none st.reg st.rngIdx shuffle).2 })
    hsync
  constructor
  · rw [hstep]
    show (stageList.foldl (StagedActivation.runStage shuffles act modelAct
        (roundFrac 1 stageList.length) sbs)
        ((get_agent_keys shuffles none st.reg st.rngIdx shuffle).1, fp0,
         { st with rngIdx := (get_agent_keys shuffles none st.reg st.rngIdx shuffle).2 })).2.2.time
        = _
    rw [hfold.2.1, hfold.1]
  · rw [hstep]
    show (stageList.foldl (StagedActivation.runStage shuffles act modelAct
        (roundFrac 1 stageList.length) sbs)
        ((get_agent_keys shuffles none st.reg st.rngIdx shuffle).1, fp0,
         { st with rngIdx := (get_agent_keys shuffles none st.reg st.rngIdx shuffle).2 })).2.2.steps + 1
        = st.steps + 1
    rw [hfold.2.2]

/-- Claim C5 is refuted on the binary64 arithmetic the source performs
(`stage_time = 1/len(stage_list)` and `self.time += self.stage_time` are
Python float operations, src/mesa/time.py lines 210 and 225): with a
configured stage_list of length 7 and clock 0, the first stage advances
`time` to fl(1/7) = 5146971002709138/2^55 ≠ 1/7, and one full `step()` ends
with `time` = (2^53-2)/2^53 = 0.9999999999999998 ≠ 1 — so `time` advances
neither by exactly 1/len(stage_list) after every stage nor by exactly 1 unit
over a full step. -/
theorem claim_C5_staged_exact_time_counterexample :
    (StagedActivation.runStage (fun _ l => l) (fun _ _ r => r) (fun _ r => r)
        (roundFrac 1
          ([("a"), ("b"), ("c"), ("d"), ("e"), ("f"), ("g")] : List String).length)
        false
        ([1], ⟨0, 0⟩,
          { reg := [(0, [1])], steps := 0, time := 0, rngIdx := 0, log := [] })
        ("a")).2.2.time
      ≠ (0 : ℚ) + 1 / 7 ∧
    (StagedActivation.step (fun _ l => l) (fun _ _ r => r) (fun _ r => r)
        [("a"), ("b"), ("c"), ("d"), ("e"), ("f"), ("g")] false false ⟨0, 0⟩
        { reg := [(0, [1])], steps := 0, time := 0, rngIdx := 0, log := [] }).time
      ≠ (0 : ℚ) + 1 := by
  constructor
  · have h1 : (StagedActivation.runStage (fun _ l => l) (fun _ _ r => r) (fun _ r => r)
        (roundFrac 1
          ([("a"), ("b"), ("c"), ("d"), ("e"), ("f"), ("g")] : List String).length)
        false
        ([1], ⟨0, 0⟩,
          { reg := [(0, [1])], steps := 0, time := 0, rngIdx := 0, log := [] })
        ("a")).2.2.time
        = F64.val ⟨5146971002709138, 55⟩ := rfl
    rw [h1]
    norm_num [F64.val]
  · rcases staged_step_clock (fun _ l => l) (fun _ _ r => r) (fun _ r => r)
      [("a"), ("b"), ("c"), ("d"), ("e"), ("f"), ("g")] false false ⟨0, 0⟩
      { reg := [(0, [1])], steps := 0, time := 0, rngIdx := 0, log := [] }
      (by norm_num [F64.val]) with ⟨h2, _h3⟩
    rw [h2]
    have e2 : ([("a"), ("b"), ("c"), ("d"), ("e"), ("f"), ("g")] : List String).foldl
        (fun f _ => F64.add f (roundFrac 1
          ([("a"), ("b"), ("c"), ("d"), ("e"), ("f"), ("g")] : List String).length))
        (⟨0, 0⟩ : F64)
        = (⟨9007199254740990, 53⟩ : F64) := by decide
    rw [e2]
    norm_num [F64.val]

/-- Claim C5, amended to the binary64 arithmetic the source performs: for
every StagedActivation scheduler with a configured stage_list, after every
stage the clock has advanced by one binary64 addition of the binary64
stage_time fl(1/len(stage_list)) (not, in general, by exactly
1/len(stage_list)), the clock after one full `step()` is the binary64
accumulation of len(stage_list) such increments (not, in general, exactly 1
more), and `steps` increments by exactly 1 once per full step; for the
spec's example stage_list ["a", "b"] the accumulation is exact: from clock 0,
two increments of exactly 1/2 give exactly 1. -/
theorem claim_C5_staged_float_time
    (shuffles : Nat → List AgentId → List AgentId) (act : Behavior)
    (modelAct : String → Registry → Registry) (stageList : List String)
    (shuffle sbs : Bool) (fp0 : F64) (st : SchedState)
    (p : List AgentId × F64 × SchedState) (stage : String)
    (hl : stageList ≠ []) (hsync : st.time = F64.val fp0) :
    (StagedActivation.runStage shuffles act modelAct
        (roundFrac 1 stageList.length) sbs p stage).2.2.time
      = F64.val (F64.add p.2.1 (roundFrac 1 stageList.length)) ∧
    (StagedActivation.step shuffles act modelAct stageList shuffle sbs fp0 st).time
      = F64.val (stageList.foldl
          (fun f _ => F64.add f (roundFrac 1 stageList.length)) fp0) ∧
    (StagedActivation.step shuffles act modelAct stageList shuffle sbs fp0 st).steps
      = st.steps + 1 ∧
    F64.val (F64.add ⟨0, 0⟩ (roundFrac 1 2)) = 1 / 2 ∧
    F64.val (F64.add (F64.add ⟨0, 0⟩ (roundFrac 1 2)) (roundFrac 1 2)) = 1 := by
  rcases staged_step_clock shuffles act modelAct stageList shuffle sbs fp0 st hsync
    with ⟨h1, h2⟩
  refine ⟨(runStage_clock shuffles act modelAct
      (roundFrac 1 stageList.length) sbs p stage).2.1, h1, h2, ?_, ?_⟩
  · have e1 : F64.add ⟨0, 0⟩ (roundFrac 1 2) = (⟨4503599627370496, 53⟩ : F64) := by
      decide
    rw [e1]
    norm_num [F64.val]
  · have e2 : F64.add (F64.add ⟨0, 0⟩ (roundFrac 1 2)) (roundFrac 1 2)
        = (⟨4503599627370496, 52⟩ : F64) := by decide
    rw [e2]
    norm_num [F64.val]

/-- Witness for the amended claim C5: stage_list = ["a", "b"] from clock 0;
each stage performs one binary64 addition of fl(1/2) = 1/2, the full step
accumulates to exactly 1, and `steps` goes from 0 to 1. -/
theorem claim_C5_staged_float_time_witness :
    (StagedActivation.runStage (fun _ l => l) (fun _ _ r => r) (fun _ r => r)
        (roundFrac 1 ([("a"), ("b")] : List String).length) false
        ([1], ⟨0, 0⟩,
          { reg := [(0, [1])], steps := 0, time := 0, rngIdx := 0, log := [] })
        ("a")).2.2.time
      = F64.val (F64.add
          ((([1], (⟨0, 0⟩ : F64),
            ({ reg := [(0, [1])], steps := 0, time := 0, rngIdx := 0, log := [] }
              : SchedState)) : List AgentId × F64 × SchedState)).2.1
          (roundFrac 1 ([("a"), ("b")] : List String).length)) ∧
    (StagedActivation.step (fun _ l => l) (fun _ _ r => r) (fun _ r => r)
        [("a"), ("b")] false false ⟨0, 0⟩
        { reg := [(0, [1])], steps := 0, time := 0, rngIdx := 0, log := [] }).time
      = F64.val (([("a"), ("b")] : List String).foldl
          (fun f _ => F64.add f (roundFrac 1 ([("a"), ("b")] : List String).length))
          ⟨0, 0⟩) ∧
    (StagedActivation.step (fun _ l => l) (fun _ _ r => r) (fun _ r => r)
        [("a"), ("b")] false false ⟨0, 0⟩
        { reg := [(0, [1])], steps := 0, time := 0, rngIdx := 0, log := [] }).steps
      = 0 + 1 ∧
    F64.val (F64.add ⟨0, 0⟩ (roundFrac 1 2)) = 1 / 2 ∧
    F64.val (F64.add (F64.add ⟨0, 0⟩ (roundFrac 1 2)) (roundFrac 1 2)) = 1 :=
  claim_C5_staged_float_time (fun _ l => l) (fun _ _ r => r) (fun _ r => r)
    [("a"), ("b")] false false ⟨0, 0⟩
    { reg := [(0, [1])], steps := 0, time := 0, rngIdx := 0, log := [] }
    ([1], ⟨0, 0⟩,
      { reg := [(0, [1])], steps := 0, time := 0, rngIdx := 0, log := [] })
    ("a") (by decide) (by norm_num [F64.val])

theorem runEvents_spec (act : AgentId → List AgentId → List AgentId)
    (endTime : ℚ) (hact : ∀ a l, act a l = l) :
    ∀ (q : List Event) (st : DESState), st.queue = q →
      (DiscreteEventScheduler.runEvents act endTime q st).queue
          = q.dropWhile (fun e => decide (e.1 ≤ endTime)) ∧
        (DiscreteEventScheduler.runEvents act endTime q st).log
          = st.log ++ ((q.takeWhile (fun e => decide (e.1 ≤ endTime))).filter
              (fun e => st.agentsReg.contains e.2.2)).map (fun e => (e.1, e.2.2)) ∧
        (DiscreteEventScheduler.runEvents act endTime q st).steps = st.steps ∧
        (DiscreteEventScheduler.runEvents act endTime q st).agentsReg = st.agentsReg ∧
        (DiscreteEventScheduler.runEvents act endTime q st).timeStep = st.timeStep := by
  intro q
  induction q with
  | nil =>
    intro st hq
    refine ⟨?_, ?_, rfl, rfl, rfl⟩
    · simpa [DiscreteEventScheduler.runEvents] using hq
    · simp [DiscreteEventScheduler.runEvents]
  | cons e rest ih =>
    intro st hq
    by_cases he : e.1 ≤ endTime
    · by_cases hc : st.agentsReg.contains e.2.2 = true
      · have hcm : e.2.2 ∈ st.agentsReg := contains_true_iff_mem.mp hc
        have hrun : DiscreteEventScheduler.runEvents act endTime (e :: rest) st
            = DiscreteEventScheduler.runEvents act endTime rest
                { st with queue := rest, time := e.1,
                          agentsReg := act e.2.2 st.agentsReg,
                          log := st.log ++ [(e.1, e.2.2)] } := by
          simp [DiscreteEventScheduler.runEvents, he, hcm]
        rcases ih { st with queue := rest, time := e.1,
                            agentsReg := act e.2.2 st.agentsReg,
                            log := st.log ++ [(e.1, e.2.2)] } rfl
          with ⟨hq2, hl2, hs2, ha2, ht2⟩
        rw [hrun]
        refine ⟨?_, ?_, ?_, ?_, ?_⟩
        · rw [hq2]
          simp [he]
        · rw [hl2]
          simp [he, hcm, hact]
        · exact hs2
        · rw [ha2, hact]
        · exact ht2
      · have hcm : e.2.2 ∉ st.agentsReg :=
          fun hm => hc (contains_true_iff_mem.mpr hm)
        have hrun : DiscreteEventScheduler.runEvents act endTime (e :: rest) st
            = DiscreteEventScheduler.runEvents act endTime rest
                { st with queue := rest, time := e.1 } := by
          simp [DiscreteEventScheduler.runEvents, he, hcm]
        rcases ih { st with queue := rest, time := e.1 } rfl
          with ⟨hq2, hl2, hs2, ha2, ht2⟩
        rw [hrun]
        refine ⟨?_, ?_, ?_, ?_, ?_⟩
        · rw [hq2]
          simp [he]
        · rw [hl2]
          simp [he, hcm]
        · exact hs2
        · exact ha2
        · exact ht2
    · have hrun : DiscreteEventScheduler.runEvents act endTime (e :: rest) st = st := by
        simp [DiscreteEventScheduler.runEvents, he]
      rw [hrun]
      refine ⟨?_, ?_, rfl, rfl, rfl⟩
      · rw [hq]
        simp [he]
      · simp [he]

/-- Claim C7: `DiscreteEventScheduler.step()` with `end_time = time +
time_step` pops from the (time, tie-break)-sorted queue exactly the maximal
ascending-order prefix of events with time at most `end_time`; before each
invocation the clock is set to the popped event's exact timestamp (the trace
records that clock value); a popped event of an unregistered agent is
consumed but not invoked; afterwards `time` is exactly `end_time` (whether or
not an event landed there) and `steps` increments by 1. -/
theorem claim_C7_des_step_processes_due_events
    (act : AgentId → List AgentId → List AgentId) (st : DESState)
    (hact : ∀ a l, act a l = l)
    (hsorted : List.Pairwise evLe st.queue) :
    (DiscreteEventScheduler.step act st).time = st.time + st.timeStep ∧
    (DiscreteEventScheduler.step act st).steps = st.steps + 1 ∧
    (DiscreteEventScheduler.step act st).log
      = st.log ++ ((st.queue.takeWhile
          (fun e => decide (e.1 ≤ st.time + st.timeStep))).filter
          (fun e => st.agentsReg.contains e.2.2)).map (fun e => (e.1, e.2.2)) ∧
    (DiscreteEventScheduler.step act st).queue
      = st.queue.dropWhile (fun e => decide (e.1 ≤ st.time + st.timeStep)) ∧
    List.Pairwise evLe (st.queue.takeWhile
      (fun e => decide (e.1 ≤ st.time + st.timeStep))) := by
  rcases runEvents_spec act (st.time + st.timeStep) hact st.queue st rfl
    with ⟨hq, hl, hs, ha, ht⟩
  refine ⟨rfl, ?_, ?_, ?_, ?_⟩
  · show (DiscreteEventScheduler.runEvents act (st.time + st.timeStep)
        st.queue st).steps + 1 = st.steps + 1
    rw [hs]
  · exact hl
  · exact hq
  · exact List.Pairwise.sublist (List.takeWhile_sublist _) hsorted

/-- Witness for claim C7: current time 0, time_step 10, sorted queue with
events at 3 (agent 1), 5 (unregistered agent 5), 7 (agent 2) and 15
(agent 1); the step invokes agents 1 and 2 at clock values 3 and 7, consumes
but skips agent 5's event, leaves the time-15 event queued and ends with
time 10, steps 1. -/
theorem claim_C7_des_step_processes_due_events_witness :
    (DiscreteEventScheduler.step (fun _ l => l)
        { agentsReg := [1, 2], queue := [(3, 0, 1), (5, 0, 5), (7, 0, 2), (15, 0, 1)],
          time := 0, timeStep := 10, steps := 0, rngIdx := 0, log := [] }).time
      = (0 : ℚ) + 10 ∧
    (DiscreteEventScheduler.step (fun _ l => l)
        { agentsReg := [1, 2], queue := [(3, 0, 1), (5, 0, 5), (7, 0, 2), (15, 0, 1)],
          time := 0, timeStep := 10, steps := 0, rngIdx := 0, log := [] }).steps
      = 0 + 1 ∧
    (DiscreteEventScheduler.step (fun _ l => l)
        { agentsReg := [1, 2], queue := [(3, 0, 1), (5, 0, 5), (7, 0, 2), (15, 0, 1)],
          time := 0, timeStep := 10, steps := 0, rngIdx := 0, log := [] }).log
      = [] ++ ((([(3, 0, 1), (5, 0, 5), (7, 0, 2), (15, 0, 1)]
            : List Event).takeWhile
            (fun e => decide (e.1 ≤ (0 : ℚ) + 10))).filter
            (fun e => ([1, 2] : List AgentId).contains e.2.2)).map
            (fun e => (e.1, e.2.2)) ∧
    (DiscreteEventScheduler.step (fun _ l => l)
        { agentsReg := [1, 2], queue := [(3, 0, 1), (5, 0, 5), (7, 0, 2), (15, 0, 1)],
          time := 0, timeStep := 10, steps := 0, rngIdx := 0, log := [] }).queue
      = ([(3, 0, 1), (5, 0, 5), (7, 0, 2), (15, 0, 1)]
          : List Event).dropWhile (fun e => decide (e.1 ≤ (0 : ℚ) + 10)) ∧
    List.Pairwise evLe (([(3, 0, 1), (5, 0, 5), (7, 0, 2), (15, 0, 1)]
        : List Event).takeWhile (fun e => decide (e.1 ≤ (0 : ℚ) + 10))) :=
  claim_C7_des_step_processes_due_events (fun _ l => l)
    { agentsReg := [1, 2], queue := [(3, 0, 1), (5, 0, 5), (7, 0, 2), (15, 0, 1)],
      time := 0, timeStep := 10, steps := 0, rngIdx := 0, log := [] }
    (fun _ _ => rfl) (by decide)

/-- Claim C6: `schedule_event(time, agent)` raises an ordering-violation
error exactly when `time` is strictly less than the current clock, and
otherwise pushes the event keyed (time, tie-break draw) onto the priority
queue, leaving the clock untouched; `schedule_in(delay, agent)` raises an
invalid-argument error exactly when `delay` is negative, and otherwise
behaves exactly as `schedule_event(current_time + delay, agent)`. -/
theorem claim_C6_schedule_event_and_schedule_in (floats : Nat → ℚ)
    (t u d e : ℚ) (a : AgentId) (st : DESState)
    (h : ¬ t < st.time) (hd : 0 ≤ d) :
    DiscreteEventScheduler.schedule_event floats t a st
        = Except.ok { st with
            queue := insertEvent (t, floats st.rngIdx, a) st.queue,
            rngIdx := st.rngIdx + 1 } ∧
      (DiscreteEventScheduler.schedule_event floats u a st).isOk
        = !decide (u < st.time) ∧
      (DiscreteEventScheduler.schedule_in floats e a st).isOk
        = !decide (e < 0) ∧
      DiscreteEventScheduler.schedule_in floats d a st
        = DiscreteEventScheduler.schedule_event floats (st.time + d) a st := by
  refine ⟨?_, ?_, ?_, ?_⟩
  · simp [DiscreteEventScheduler.schedule_event, h]
  · by_cases hu : u < st.time
    · simp [DiscreteEventScheduler.schedule_event, hu, Except.isOk, Except.toBool]
    · simp [DiscreteEventScheduler.schedule_event, hu, Except.isOk, Except.toBool]
  · by_cases he : e < 0
    · simp [DiscreteEventScheduler.schedule_in, he, Except.isOk, Except.toBool]
    · have hok : ¬ st.time + e < st.time := by
        have : (0 : ℚ) ≤ e := not_lt.mp he
        linarith
      simp [DiscreteEventScheduler.schedule_in, he,
        DiscreteEventScheduler.schedule_event, hok, Except.isOk, Except.toBool]
  · have hnd : ¬ d < 0 := not_lt.mpr hd
    simp [DiscreteEventScheduler.schedule_in, hnd]

/-- Witness for claim C6: clock 0; scheduling at time 3 succeeds and pushes
(3, draw, 7); probing at time 5 is ok; a delay of -2 is rejected; a delay of
2 equals scheduling at time 0 + 2. -/
theorem claim_C6_schedule_event_and_schedule_in_witness :
    DiscreteEventScheduler.schedule_event (fun _ => 0) 3 7
        { agentsReg := [], queue := [], time := 0, timeStep := 1, steps := 0,
          rngIdx := 0, log := [] }
        = Except.ok { ({ agentsReg := [], queue := [], time := 0, timeStep := 1,
                         steps := 0, rngIdx := 0, log := [] } : DESState) with
                      queue := insertEvent (3, (fun (_ : Nat) => (0 : ℚ)) 0, 7) [],
                      rngIdx := 0 + 1 } ∧
      (DiscreteEventScheduler.schedule_event (fun _ => 0) 5 7
        { agentsReg := [], queue := [], time := 0, timeStep := 1, steps := 0,
          rngIdx := 0, log := [] }).isOk
        = !decide ((5 : ℚ) < (0 : ℚ)) ∧
      (DiscreteEventScheduler.schedule_in (fun _ => 0) (-2) 7
        { agentsReg := [], queue := [], time := 0, timeStep := 1, steps := 0,
          rngIdx := 0, log := [] }).isOk
        = !decide ((-2 : ℚ) < 0) ∧
      DiscreteEventScheduler.schedule_in (fun _ => 0) 2 7
        { agentsReg := [], queue := [], time := 0, timeStep := 1, steps := 0,
          rngIdx := 0, log := [] }
        = DiscreteEventScheduler.schedule_event (fun _ => 0) ((0 : ℚ) + 2) 7
            { agentsReg := [], queue := [], time := 0, timeStep := 1, steps := 0,
              rngIdx := 0, log := [] } :=
  claim_C6_schedule_event_and_schedule_in (fun _ => 0) 3 5 2 (-2) 7
    { agentsReg := [], queue := [], time := 0, timeStep := 1, steps := 0,
      rngIdx := 0, log := [] }
    (by decide) (by decide)

theorem mem_insertEvent_self (e : Event) : ∀ q : List Event, e ∈ insertEvent e q
  | [] => List.mem_singleton_self e
  | f :: rest => by
    unfold insertEvent
    by_cases h : evLe e f
    · simp [h]
    · simp only [h, if_false]
      exact List.mem_cons_of_mem f (mem_insertEvent_self e rest)

/-- Claim C8: adding an agent to a DiscreteEventScheduler with
`schedule_now` left at its default (True) succeeds and immediately schedules
the agent's first event at the scheduler's current time: the result is the
registered state with the event (current time, draw, agent) pushed, that
event is pending in the resulting queue, and the agent is registered. -/
theorem claim_C8_add_schedules_first_event (floats : Nat → ℚ) (a : AgentId)
    (st : DESState) :
    DiscreteEventScheduler.add floats a true st
        = Except.ok { st with
            agentsReg := DiscreteEventScheduler.baseSchedulerAdd a st.agentsReg,
            queue := insertEvent (st.time, floats st.rngIdx, a) st.queue,
            rngIdx := st.rngIdx + 1 } ∧
      (st.time, floats st.rngIdx, a)
        ∈ insertEvent (st.time, floats st.rngIdx, a) st.queue ∧
      a ∈ DiscreteEventScheduler.baseSchedulerAdd a st.agentsReg := by
  refine ⟨?_, mem_insertEvent_self _ st.queue, ?_⟩
  · simp [DiscreteEventScheduler.add, DiscreteEventScheduler.schedule_event,
      lt_irrefl]
  · by_cases h : a ∈ st.agentsReg
    · have hc : st.agentsReg.contains a = true := contains_true_iff_mem.mpr h
      unfold DiscreteEventScheduler.baseSchedulerAdd
      rw [if_pos hc]
      exact h
    · have hc : ¬ st.agentsReg.contains a = true :=
        fun hcc => h (contains_true_iff_mem.mp hcc)
      unfold DiscreteEventScheduler.baseSchedulerAdd
      rw [if_neg hc]
      exact List.mem_append_right _ (List.mem_singleton_self a)

/-- Claim C10: for every non-negative delay, `schedule_in(delay, agent)`
never triggers the ordering-violation branch of `schedule_event`: the
computed event time `current_time + delay` is never strictly below the
clock, so the call returns the successfully extended state. -/
theorem claim_C10_schedule_in_ordering_branch_unreachable (floats : Nat → ℚ)
    (d : ℚ) (a : AgentId) (st : DESState) (hd : 0 ≤ d) :
    ¬ (st.time + d < st.time) ∧
      DiscreteEventScheduler.schedule_in floats d a st
        = Except.ok { st with
            queue := insertEvent (st.time + d, floats st.rngIdx, a) st.queue,
            rngIdx := st.rngIdx + 1 } := by
  have hlt : ¬ (st.time + d < st.time) := by linarith
  refine ⟨hlt, ?_⟩
  have hnd : ¬ d < 0 := not_lt.mpr hd
  simp [DiscreteEventScheduler.schedule_in, hnd,
    DiscreteEventScheduler.schedule_event, hlt]

/-- Witness for claim C10: clock 4, delay 2 schedules at 6 without error. -/
theorem claim_C10_schedule_in_ordering_branch_unreachable_witness :
    ¬ ((4 : ℚ) + 2 < (4 : ℚ)) ∧
      DiscreteEventScheduler.schedule_in (fun _ => 0) 2 7
          { agentsReg := [7], queue := [], time := 4, timeStep := 1, steps := 0,
            rngIdx := 0, log := [] }
        = Except.ok { ({ agentsReg := [7], queue := [], time := 4, timeStep := 1,
                         steps := 0, rngIdx := 0, log := [] } : DESState) with
                      queue := insertEvent ((4 : ℚ) + 2,
                        (fun (_ : Nat) => (0 : ℚ)) 0, 7) [],
                      rngIdx := 0 + 1 } :=
  claim_C10_schedule_in_ordering_branch_unreachable (fun _ => 0) 2 7
    { agentsReg := [7], queue := [], time := 4, timeStep := 1, steps := 0,
      rngIdx := 0, log := [] }
    (by decide)

/-- Claim C9 is refuted by this evaluation: `Agent.__init__` as written in
src/mesa/agent.py only sets attributes on the agent object itself and never
registers the agent anywhere, so the model state is returned unchanged and,
immediately after constructing an agent on a fresh model, the model's live
population does not contain it — while the claim (and the repository's own
test `test_meta_agent_model_integration`) says construction registers the
agent. -/
theorem claim_C9_agent_init_does_not_register :
    (∀ (uid : AgentId) (atype : AgentType) (m : ModelState),
        (Agent.init uid atype m).2 = m) ∧
      (Agent.init 1 0 Model.init).2.agentsStore = [] ∧
      Model.hasAgent (Agent.init 1 0 Model.init).2 1 = false :=
  ⟨fun _ _ _ => rfl, rfl, rfl⟩

end Mesa
